import Mathlib

/-!
Verification of the compatibility-data normalization engine of the
`caniuse_cli` tool (`src/main.rs`).

The engine consists of three pieces of the Rust source:
  * `get_support_emoji`      — the Status Classifier (lines 62-73);
  * `get_support_and_notes`  — raw-version extraction and the Note
    Resolver (lines 75-114);
  * the row-building loop in `main` — the support branch (lines 144-162),
    the stats branch with the Version Selector (lines 163-192), and the
    placeholder decision (lines 194-199).

These are embedded below as executable Lean functions.  Rust `HashMap`s
are embedded as association lists in a fixed iteration order (HashMap
iteration order is arbitrary but fixed for a given map value; the spec
itself acknowledges the iteration-order dependence of the selector's
tie-break).  Rust `f32` parsing is embedded by its acceptance grammar,
with accepted finite decimal literals carried as exact rationals and the
special values NaN and ±infinity carried symbolically; the rounding of a
decimal literal to the nearest 32-bit float is not modelled (version
labels are far below the precision where rounding could reorder them).
Rust `str::to_lowercase` and `char::is_whitespace` are embedded by their
ASCII behaviour, which coincides with Rust on every string the keyword
comparisons and token splits can distinguish.
-/

/-- ASCII lower-casing of a string, embedding Rust `str::to_lowercase`
as used by `get_support_emoji` (only ASCII letters matter for the
keyword comparisons performed on the result). -/
def toLowerStr (s : String) : String :=
  String.mk (s.data.map Char.toLower)

/-- The numeric value of a list of decimal digit characters. -/
def digitsToNat (ds : List Char) : Nat :=
  ds.foldl (fun acc c => 10 * acc + (c.toNat - 48)) 0

/-- The value of a parsed Rust `f32`: NaN, a signed infinity, or a
finite number (carried as an exact rational). -/
inductive F32Val where
  | nan : F32Val
  | inf (neg : Bool) : F32Val
  | num (q : ℚ) : F32Val
deriving DecidableEq

/-- Embedding of Rust `<f32 as FromStr>::from_str` on a character list:
optional sign, then a case-insensitive `inf`/`infinity`/`nan` keyword or
a decimal number `Digit+ | Digit+ '.' Digit* | Digit* '.' Digit+` with an
optional exponent `(e|E) Sign? Digit+`.  Returns `none` exactly when Rust
returns `Err`; overflow to infinity cannot occur in the rational model,
but overflow never makes Rust's parser return `Err` either, so acceptance
agrees with Rust on every string. -/
def rustParseF32Chars (cs : List Char) : Option F32Val :=
  let signRest : Bool × List Char :=
    match cs with
    | '+' :: r => (false, r)
    | '-' :: r => (true, r)
    | _ => (false, cs)
  let neg := signRest.1
  let rest := signRest.2
  let lower := rest.map Char.toLower
  if lower = ['i','n','f'] ∨ lower = ['i','n','f','i','n','i','t','y'] then
    some (F32Val.inf neg)
  else if lower = ['n','a','n'] then
    some F32Val.nan
  else
    let ipSplit := rest.span Char.isDigit
    let ip := ipSplit.1
    let fracSplit : Option (List Char) × List Char :=
      match ipSplit.2 with
      | '.' :: r => ((r.span Char.isDigit).1, (r.span Char.isDigit).2)
      | _ => (none, ipSplit.2)
    let fp := (fracSplit.1).getD []
    let r2 := fracSplit.2
    if ip = [] ∧ fp = [] then none
    else
      let mant : ℚ := (digitsToNat ip : ℚ) + (digitsToNat fp : ℚ) / (10 : ℚ) ^ fp.length
      let signed : ℚ := if neg then -mant else mant
      match r2 with
      | [] => some (F32Val.num signed)
      | e :: r3 =>
        if e = 'e' ∨ e = 'E' then
          let esignRest : Int × List Char :=
            match r3 with
            | '+' :: r => (1, r)
            | '-' :: r => (-1, r)
            | _ => (1, r3)
          let edsSplit := esignRest.2.span Char.isDigit
          if edsSplit.1 = [] ∨ edsSplit.2 ≠ [] then none
          else some (F32Val.num (signed * (10 : ℚ) ^ (esignRest.1 * (digitsToNat edsSplit.1 : Int))))
        else none

/-- Embedding of Rust `s.parse::<f32>()`. -/
def rustParseF32 (s : String) : Option F32Val :=
  rustParseF32Chars s.data

/-- Embedding of Rust `s.parse::<f32>().is_ok()`. -/
def rustF32ok (s : String) : Bool :=
  (rustParseF32 s).isSome

/-- Embedding of `get_support_emoji` (src/main.rs lines 62-73): exact
`"false"`, then the numeric-parse guard, then the case-insensitive
keyword match on the lower-cased string. -/
def get_support_emoji (support_value : String) : String :=
  if support_value = "false" then "❌"
  else if rustF32ok support_value then "✅"
  else if toLowerStr support_value = "y" ∨ toLowerStr support_value = "true" then "✅"
  else if toLowerStr support_value = "n" ∨ toLowerStr support_value = "false" then "❌"
  else if toLowerStr support_value = "a" ∨ toLowerStr support_value = "partial" then "🟨"
  else "❓"

/-- The four support statuses of the specification. -/
inductive Status where
  | supported : Status
  | unsupported : Status
  | partiallySupported : Status
  | unknown : Status
deriving DecidableEq

/-- Interpretation of the classifier's emoji output as a status. -/
def statusOfEmoji (e : String) : Status :=
  if e = "✅" then Status.supported
  else if e = "❌" then Status.unsupported
  else if e = "🟨" then Status.partiallySupported
  else Status.unknown

/-- The Status Classifier: `get_support_emoji` read as a status. -/
def classify (s : String) : Status :=
  statusOfEmoji (get_support_emoji s)

/-- The classification cascade exactly as the specification words it
(first match wins): exact `"false"`, then full float parse, then the
case-insensitive keyword sets, else unknown. -/
def specClassify (s : String) : Status :=
  if s = "false" then Status.unsupported
  else if rustF32ok s then Status.supported
  else if toLowerStr s = "y" ∨ toLowerStr s = "true" then Status.supported
  else if toLowerStr s = "n" ∨ toLowerStr s = "false" then Status.unsupported
  else if toLowerStr s = "a" ∨ toLowerStr s = "partial" then Status.partiallySupported
  else Status.unknown

/-- C1: the Status Classifier returns exactly one of the four statuses by
the spec's first-match order: the exact string `"false"` maps to
Unsupported; otherwise any string that fully parses as a floating-point
number maps to Supported (before the keyword checks); otherwise the
case-insensitive keywords `y`/`true`, `n`/`false`, `a`/`partial` map to
Supported, Unsupported and Partial respectively, and every other string
(including the empty string) maps to Unknown. -/
theorem c1_classifier_order : ∀ s : String, classify s = specClassify s := by
  intro s
  by_cases h1 : s = "false" <;>
  by_cases h2 : rustF32ok s = true <;>
  by_cases h3 : toLowerStr s = "y" ∨ toLowerStr s = "true" <;>
  by_cases h4 : toLowerStr s = "n" ∨ toLowerStr s = "false" <;>
  by_cases h5 : toLowerStr s = "a" ∨ toLowerStr s = "partial" <;>
  simp [classify, get_support_emoji, specClassify, statusOfEmoji, h1, h2, h3, h4, h5]

/-- Association-list lookup, embedding `HashMap::get` on a map presented
in its (fixed, arbitrary) iteration order; keys of a `HashMap` are
distinct, so first-match lookup agrees with the map. -/
def alookup {α : Type} : List (String × α) → String → Option α
  | [], _ => none
  | (k, v) :: rest, key => if k = key then some v else alookup rest key

/-- Tail-building worker for whitespace splitting: `cur` holds the
characters of the token in progress, in reverse. -/
def splitWsAux (cur : List Char) : List Char → List (List Char)
  | [] => if cur = [] then [] else [cur.reverse]
  | c :: cs =>
    if c.isWhitespace then
      if cur = [] then splitWsAux [] cs
      else cur.reverse :: splitWsAux [] cs
    else splitWsAux (c :: cur) cs

/-- Embedding of Rust `str::split_whitespace` (collected to a list):
maximal runs of non-whitespace characters, empty runs dropped. -/
def splitWs (s : String) : List String :=
  (splitWsAux [] s.data).map fun cs => String.mk cs

/-- The first whitespace-delimited token, embedding
`s.split_whitespace().next()`. -/
def firstWsTok (s : String) : Option String :=
  (splitWs s).head?

/-- Embedding of Rust `s.contains("#")` (a one-character needle, so
substring containment is character membership). -/
def containsHash (s : String) : Bool :=
  s.data.contains '#'

/-- Embedding of Rust `bool::to_string`. -/
def boolToString (b : Bool) : String :=
  if b then "true" else "false"

/-- A decoded `serde_json::Value` as stored under a `Detail` shape's
keys.  Only strings, booleans and null are interpreted anywhere in the
engine; every other JSON value (number, array, object) only ever flows
into `Value::to_string`, so it is carried abstractly as `other r` where
`r` is its serialized rendering. -/
inductive Json where
  | jstr (s : String) : Json
  | jbool (b : Bool) : Json
  | jnull : Json
  | other (rendered : String) : Json
deriving DecidableEq

/-- Embedding of `serde_json::Value::as_str`. -/
def Json.asStr : Json → Option String
  | Json.jstr s => some s
  | _ => none

/-- Embedding of `serde_json::Value::to_string` (the JSON rendering).
The string case serializes with surrounding quotes; the engine only ever
calls `to_string` after `as_str` has failed, so that case is unreachable
in every use below (its escaping of inner characters is not modelled). -/
def Json.toStr : Json → String
  | Json.jstr s => "\x22" ++ s ++ "\x22"
  | Json.jbool b => boolToString b
  | Json.jnull => "null"
  | Json.other r => r

/-- The `BrowserSupport` untagged union of src/main.rs lines 25-31:
boolean, bare string, or free-form object. -/
inductive BrowserSupport where
  | bool (b : Bool) : BrowserSupport
  | str (s : String) : BrowserSupport
  | obj (fields : List (String × Json)) : BrowserSupport

/-- A notes-by-number side table (`Option<HashMap<String, String>>`). -/
abbrev NotesIndex := Option (List (String × String))

/-- Embedding of Rust `part.starts_with('#')`. -/
def startsWithHash (s : String) : Bool :=
  match s.data with
  | '#' :: _ => true
  | _ => false

/-- Embedding of Rust `&note_ref[1..]` on a token that starts with the
one-byte character `'#'` (so the byte slice is the character tail). -/
def dropHash (s : String) : String :=
  String.mk (s.data.drop 1)

/-- Embedding of `Vec::join(sep)` as used on the resolved note list. -/
def joinSep (sep : String) : List String → String
  | [] => ""
  | [x] => x
  | x :: xs => x ++ sep ++ joinSep sep xs

/-- The footnote tokens of a version string: whitespace-delimited parts
that start with `'#'` (src/main.rs lines 82-84). -/
def noteTokens (version_str : String) : List String :=
  (splitWs version_str).filter fun part => startsWithHash part

/-- The Note Resolver portion of `get_support_and_notes` (src/main.rs
lines 82-92): for each footnote token, drop the leading `'#'`, look the
number up in the notes index, keep `"#<num>: <note>"` on success and drop
the token silently on failure; join with newlines. -/
def resolveNotes (version_str : String) (notes_by_num : NotesIndex) : String :=
  joinSep "\n" <|
    (noteTokens version_str).filterMap fun note_ref =>
      let num := dropHash note_ref
      notes_by_num.bind fun notes =>
        (alookup notes num).map fun note => "#" ++ num ++ ": " ++ note

/-- Embedding of `get_support_and_notes` (src/main.rs lines 75-114):
computes the raw support string and optional notes per shape, then
returns the emoji for that string together with the notes (empty when
absent).  In the object-with-string branch the emoji is computed from
the suffixed string, exactly as in the source. -/
def get_support_and_notes (support_info : BrowserSupport) (notes_by_num : NotesIndex) :
    String × String :=
  let pair : String × Option String :=
    match support_info with
    | BrowserSupport.bool b => (boolToString b, none)
    | BrowserSupport.str s => (s, none)
    | BrowserSupport.obj fields =>
      match alookup fields "version_added" with
      | some version_added =>
        match version_added.asStr with
        | some version_str =>
          let notes := resolveNotes version_str notes_by_num
          let support_str :=
            if containsHash version_str then version_str ++ " (see notes)" else version_str
          (support_str, some notes)
        | none => (version_added.toStr, none)
      | none => ("unknown", none)
  (get_support_emoji pair.1, pair.2.getD "")

/-- One normalized output row (`BrowserSupportRow`, src/main.rs lines
55-60). -/
structure BrowserSupportRow where
  browser : String
  support : String
  notes : String
deriving DecidableEq

/-- The support-branch row construction of the main loop (src/main.rs
lines 145-161): emoji and notes from `get_support_and_notes`, and a
displayed support string recomputed per shape, falling back to the
literal `"false"` when `version_added` is absent or not a string. -/
def supportRow (browser : String) (support_info : BrowserSupport)
    (notes_by_num : NotesIndex) : BrowserSupportRow :=
  let en := get_support_and_notes support_info notes_by_num
  let support_str :=
    match support_info with
    | BrowserSupport.bool b => boolToString b
    | BrowserSupport.str s => s
    | BrowserSupport.obj fields =>
      match (alookup fields "version_added").bind Json.asStr with
      | none => "false"
      | some v => if containsHash v then v ++ " (see notes)" else v
  { browser := en.1 ++ " " ++ browser, support := support_str, notes := en.2 }

/-- The comparison key of a version label in the stats branch:
`a.parse::<f32>().unwrap_or(0.0)` (src/main.rs lines 168-170). -/
def keyVal (s : String) : F32Val :=
  (rustParseF32 s).getD (F32Val.num 0)

/-- Embedding of `f32::partial_cmp`: `none` exactly when one side is
NaN; infinities and finite values are totally ordered (negative zero,
which IEEE compares equal to zero, is already collapsed in `F32Val`). -/
def pcmpF32 : F32Val → F32Val → Option Ordering
  | F32Val.nan, _ => none
  | _, F32Val.nan => none
  | F32Val.inf a, F32Val.inf b =>
    if a = b then some Ordering.eq
    else if a then some Ordering.lt else some Ordering.gt
  | F32Val.inf a, F32Val.num _ =>
    some (if a then Ordering.lt else Ordering.gt)
  | F32Val.num _, F32Val.inf b =>
    some (if b then Ordering.gt else Ordering.lt)
  | F32Val.num a, F32Val.num b =>
    some (if a < b then Ordering.lt else if b < a then Ordering.gt else Ordering.eq)

/-- The comparator closure of the stats branch (src/main.rs lines
167-172), applied to two labels:
`a.parse::<f32>().unwrap_or(0.0).partial_cmp(&b.parse...).unwrap()`.
`none` stands for the `unwrap` panic on an incomparable (NaN) pair. -/
def pcmpKeys (a b : String) : Option Ordering :=
  pcmpF32 (keyVal a) (keyVal b)

/-- One step of `Iterator::max_by`: `cmp::max_by(acc, x, compare)` keeps
`acc` iff `compare(&x, &acc) == Less`, otherwise takes `x` (so later
equal elements win); `none` propagates the comparator's panic. -/
def maxByStep (acc x : String) : Option String :=
  match pcmpKeys x acc with
  | none => none
  | some Ordering.lt => some acc
  | some _ => some x

/-- The fold underlying `Iterator::max_by` over the remaining labels. -/
def maxByFold (acc : String) : List String → Option String
  | [] => some acc
  | x :: xs =>
    match maxByStep acc x with
    | none => none
    | some acc2 => maxByFold acc2 xs

/-- Embedding of `versions.keys().max_by(...).unwrap_or(&String::new())`
(src/main.rs lines 165-174): the selected version label, `""` for an
empty map, `none` for the comparator panic. -/
def latestVersion (keys : List String) : Option String :=
  match keys with
  | [] => some ""
  | k :: ks => maxByFold k ks

/-- The Version Selector: the selected label paired with its support
string, `versions.get(&latest_version).unwrap_or(&String::new())`
(src/main.rs lines 165-175); `none` for the comparator panic. -/
def selectLatest (versions : List (String × String)) : Option (String × String) :=
  match latestVersion (versions.map Prod.fst) with
  | none => none
  | some latest => some (latest, (alookup versions latest).getD "")

/-- The emoji/notes match of the stats branch (src/main.rs lines
176-184) on the selected support value's first whitespace token. -/
def statsEmojiNotes (support_value : String) : String × String :=
  match firstWsTok support_value with
  | some t =>
    if t = "a" ∨ t = "partial" then ("🟨", "see notes")
    else if t = "y" ∨ t = "true" then ("✅", "")
    else if t = "n" ∨ t = "false" then ("❌", "")
    else (get_support_emoji support_value, "")
  | none => (get_support_emoji support_value, "")

/-- The stats-branch row construction for one browser (src/main.rs lines
164-191); `none` for the comparator panic. -/
def statsRow (browser : String) (versions : List (String × String)) :
    Option BrowserSupportRow :=
  match selectLatest versions with
  | none => none
  | some sel =>
    let support_value := sel.2
    let en := statsEmojiNotes support_value
    some { browser := en.1 ++ " " ++ browser,
           support :=
             if containsHash support_value then support_value ++ " (see notes)"
             else support_value,
           notes := en.2 }

/-- The engine-relevant fields of a `FeatureData` record (src/main.rs
lines 33-53): the optional support map, the optional stats map, and the
optional notes index, each in its fixed iteration order.  The remaining
fields (title, description, …, and the extra bag) are printed outside
the engine and never influence row building. -/
structure FeatureData where
  support : Option (List (String × BrowserSupport))
  stats : Option (List (String × List (String × String)))
  notes_by_num : NotesIndex

/-- Row construction over the whole stats map, sequencing panics. -/
def statsRowsList : List (String × List (String × String)) → Option (List BrowserSupportRow)
  | [] => some []
  | (b, versions) :: rest =>
    match statsRow b versions with
    | none => none
    | some r => (statsRowsList rest).map fun rs => r :: rs

/-- The Row Builder (src/main.rs lines 142-192): the support branch when
a support map is present, else the stats branch, else no rows; `none`
stands for the stats comparator panic. -/
def buildRows (f : FeatureData) : Option (List BrowserSupportRow) :=
  match f.support with
  | some sup => some (sup.map fun e => supportRow e.1 e.2 f.notes_by_num)
  | none =>
    match f.stats with
    | some st => statsRowsList st
    | none => some []

/-- The support branch as the source writes it: pushing each row onto
the mutable `support_data` vector in turn. -/
def pushSupportRows (notes_by_num : NotesIndex) :
    List (String × BrowserSupport) → List BrowserSupportRow → List BrowserSupportRow
  | [], acc => acc
  | (b, si) :: rest, acc => pushSupportRows notes_by_num rest (acc ++ [supportRow b si notes_by_num])

/-- The stats branch as the source writes it: pushing each row onto the
vector, aborting at a comparator panic. -/
def pushStatsRows :
    List (String × List (String × String)) → List BrowserSupportRow →
      Option (List BrowserSupportRow)
  | [], acc => some acc
  | (b, versions) :: rest, acc =>
    match statsRow b versions with
    | none => none
    | some r => pushStatsRows rest (acc ++ [r])

/-- The row-building loop in accumulator-passing form, mimicking the
`support_data.push` statements of the source. -/
def buildRowsAcc (f : FeatureData) (acc : List BrowserSupportRow) :
    Option (List BrowserSupportRow) :=
  match f.support with
  | some sup => some (pushSupportRows f.notes_by_num sup acc)
  | none =>
    match f.stats with
    | some st => pushStatsRows st acc
    | none => some acc

/-- Two consecutive engine runs on the same record. -/
def runTwice (f : FeatureData) :
    Option (List BrowserSupportRow × List BrowserSupportRow) :=
  (buildRows f).bind fun r1 => (buildRows f).map fun r2 => (r1, r2)

/-- The rendering decision of src/main.rs lines 194-199: the
"No compatibility data available." placeholder is printed exactly when
row building completed with an empty row list. -/
def showsPlaceholder (f : FeatureData) : Bool :=
  match buildRows f with
  | some rows => rows.isEmpty
  | none => false

/-- Linear-order embedding of the non-NaN `f32` values: negative
infinity below every rational, positive infinity above (the NaN case is
arbitrary and only reached under contradictory hypotheses). -/
def rank : F32Val → WithBot (WithTop ℚ)
  | F32Val.nan => ⊥
  | F32Val.inf true => ⊥
  | F32Val.inf false => ((⊤ : WithTop ℚ) : WithBot (WithTop ℚ))
  | F32Val.num q => ((q : WithTop ℚ) : WithBot (WithTop ℚ))

/-- The rank of a version label's comparison key. -/
def krank (s : String) : WithBot (WithTop ℚ) :=
  rank (keyVal s)

/-- On non-NaN values `pcmpF32` always answers, and its answer is
faithful to the rank order. -/
lemma pcmp_cases (x y : F32Val) (hx : x ≠ F32Val.nan) (hy : y ≠ F32Val.nan) :
    ∃ o, pcmpF32 x y = some o ∧ (o = Ordering.lt → rank x ≤ rank y) ∧
      (o ≠ Ordering.lt → rank y ≤ rank x) := by
  cases x with
  | nan => exact absurd rfl hx
  | inf a =>
    cases y with
    | nan => exact absurd rfl hy
    | inf b =>
      cases a <;> cases b
      · exact ⟨Ordering.eq, rfl, fun h => absurd h (by decide), fun _ => le_refl _⟩
      · exact ⟨Ordering.gt, rfl, fun h => absurd h (by decide), fun _ => bot_le⟩
      · exact ⟨Ordering.lt, rfl, fun _ => bot_le, fun h => absurd rfl h⟩
      · exact ⟨Ordering.eq, rfl, fun h => absurd h (by decide), fun _ => le_refl _⟩
    | num q =>
      cases a
      · exact ⟨Ordering.gt, rfl, fun h => absurd h (by decide), fun _ => WithBot.coe_le_coe.mpr le_top⟩
      · exact ⟨Ordering.lt, rfl, fun _ => bot_le, fun h => absurd rfl h⟩
  | num q =>
    cases y with
    | nan => exact absurd rfl hy
    | inf b =>
      cases b
      · exact ⟨Ordering.lt, rfl, fun _ => WithBot.coe_le_coe.mpr le_top, fun h => absurd rfl h⟩
      · exact ⟨Ordering.gt, rfl, fun h => absurd h (by decide), fun _ => bot_le⟩
    | num q' =>
      rcases lt_trichotomy q q' with h | h | h
      · refine ⟨Ordering.lt, ?_, fun _ => ?_, fun hc => absurd rfl hc⟩
        · simp [pcmpF32, h]
        · exact WithBot.coe_le_coe.mpr (WithTop.coe_le_coe.mpr h.le)
      · subst h
        refine ⟨Ordering.eq, ?_, fun hc => absurd hc (by decide), fun _ => le_refl _⟩
        simp [pcmpF32]
      · refine ⟨Ordering.gt, ?_, fun hc => absurd hc (by decide), fun _ => ?_⟩
        · simp [pcmpF32, h, not_lt.mpr h.le]
        · exact WithBot.coe_le_coe.mpr (WithTop.coe_le_coe.mpr h.le)

/-- Invariant of the `max_by` fold: with no NaN key in sight it never
panics and returns an element whose key dominates the accumulator and
every list element. -/
lemma maxByFold_spec (xs : List String) :
    ∀ acc : String, keyVal acc ≠ F32Val.nan → (∀ x ∈ xs, keyVal x ≠ F32Val.nan) →
      ∃ m, maxByFold acc xs = some m ∧ (m = acc ∨ m ∈ xs) ∧
        krank acc ≤ krank m ∧ ∀ x ∈ xs, krank x ≤ krank m := by
  induction xs with
  | nil =>
    intro acc _ _
    exact ⟨acc, rfl, Or.inl rfl, le_refl _, by simp⟩
  | cons x xs ih =>
    intro acc ha hxs
    have hx : keyVal x ≠ F32Val.nan := hxs x (List.mem_cons_self x xs)
    have hrest : ∀ y ∈ xs, keyVal y ≠ F32Val.nan :=
      fun y hy => hxs y (List.mem_cons_of_mem x hy)
    obtain ⟨o, ho, holt, honlt⟩ := pcmp_cases (keyVal x) (keyVal acc) hx ha
    have key : (maxByStep acc x = some acc ∧ krank x ≤ krank acc) ∨
        (maxByStep acc x = some x ∧ krank acc ≤ krank x) := by
      cases o with
      | lt => exact Or.inl ⟨by simp [maxByStep, pcmpKeys, ho], holt rfl⟩
      | eq => exact Or.inr ⟨by simp [maxByStep, pcmpKeys, ho], honlt (by decide)⟩
      | gt => exact Or.inr ⟨by simp [maxByStep, pcmpKeys, ho], honlt (by decide)⟩
    rcases key with ⟨hstep, hxa⟩ | ⟨hstep, hax⟩
    · obtain ⟨m, hm, hmem, hle, hall⟩ := ih acc ha hrest
      have hfold : maxByFold acc (x :: xs) = maxByFold acc xs := by
        simp [maxByFold, hstep]
      refine ⟨m, hfold ▸ hm, ?_, hle, ?_⟩
      · rcases hmem with h | h
        · exact Or.inl h
        · exact Or.inr (List.mem_cons_of_mem x h)
      · intro y hy
        rcases List.mem_cons.mp hy with rfl | hy'
        · exact le_trans hxa hle
        · exact hall y hy'
    · obtain ⟨m, hm, hmem, hle, hall⟩ := ih x hx hrest
      have hfold : maxByFold acc (x :: xs) = maxByFold x xs := by
        simp [maxByFold, hstep]
      refine ⟨m, hfold ▸ hm, ?_, le_trans hax hle, ?_⟩
      · rcases hmem with rfl | h
        · exact Or.inr (List.mem_cons_self m xs)
        · exact Or.inr (List.mem_cons_of_mem x h)
      · intro y hy
        rcases List.mem_cons.mp hy with rfl | hy'
        · exact hle
        · exact hall y hy'

/-- Definedness (no panic) and maximality of the selected version label
on a non-empty NaN-free key list. -/
lemma latestVersion_spec (keys : List String)
    (h : ∀ k ∈ keys, keyVal k ≠ F32Val.nan) (hne : keys ≠ []) :
    ∃ m, latestVersion keys = some m ∧ m ∈ keys ∧ ∀ k ∈ keys, krank k ≤ krank m := by
  cases keys with
  | nil => exact absurd rfl hne
  | cons k ks =>
    obtain ⟨m, hm, hmem, hle, hall⟩ :=
      maxByFold_spec ks k (h k (List.mem_cons_self k ks))
        (fun y hy => h y (List.mem_cons_of_mem k hy))
    refine ⟨m, hm, ?_, ?_⟩
    · rcases hmem with rfl | h'
      · exact List.mem_cons_self m ks
      · exact List.mem_cons_of_mem k h'
    · intro y hy
      rcases List.mem_cons.mp hy with rfl | hy'
      · exact hle
      · exact hall y hy'

/-- The Version Selector answers on every NaN-free stats entry. -/
lemma selectLatest_isSome (versions : List (String × String))
    (h : ∀ p ∈ versions, keyVal p.1 ≠ F32Val.nan) :
    (selectLatest versions).isSome = true := by
  rcases hv : versions.map Prod.fst with _ | ⟨k, ks⟩
  · have hnil : versions = [] := List.map_eq_nil_iff.mp hv
    subst hnil
    rfl
  · have hkeys : ∀ k' ∈ versions.map Prod.fst, keyVal k' ≠ F32Val.nan := by
      intro k' hk'
      obtain ⟨p, hp, rfl⟩ := List.mem_map.mp hk'
      exact h p hp
    obtain ⟨m, hm, _, _⟩ := latestVersion_spec _ hkeys (by simp [hv])
    simp [selectLatest, hm]

/-- A stats-branch row exists for every NaN-free stats entry. -/
lemma statsRow_isSome (b : String) (versions : List (String × String))
    (h : ∀ p ∈ versions, keyVal p.1 ≠ F32Val.nan) :
    (statsRow b versions).isSome = true := by
  obtain ⟨sel, hsel⟩ := Option.isSome_iff_exists.mp (selectLatest_isSome versions h)
  simp [statsRow, hsel]

/-- The whole stats branch builds its row list for every NaN-free stats
map. -/
lemma statsRowsList_isSome (st : List (String × List (String × String)))
    (h : ∀ e ∈ st, ∀ p ∈ e.2, keyVal p.1 ≠ F32Val.nan) :
    (statsRowsList st).isSome = true := by
  induction st with
  | nil => rfl
  | cons e rest ih =>
    obtain ⟨b, versions⟩ := e
    obtain ⟨r, hr⟩ := Option.isSome_iff_exists.mp
      (statsRow_isSome b versions (h ⟨b, versions⟩ (List.mem_cons_self _ _)))
    obtain ⟨rs, hrs⟩ := Option.isSome_iff_exists.mp
      (ih fun e' he' => h e' (List.mem_cons_of_mem _ he'))
    simp [statsRowsList, hr, hrs]

/-- C2 counterexample: the claim asserts row building never raises for
any stats map, but the version label `"nan"` parses as floating-point
NaN, `partial_cmp` returns `None` on it, and the `unwrap` in the
comparator closure (src/main.rs line 171) panics — modelled as the
builder returning `none`. -/
theorem c2_counterexample :
    buildRows ⟨none, some [("browser1", [("nan", "y"), ("1", "n")])], none⟩ = none := by
  rfl

/-- C2 as amended: every engine operation is total with defined fallback
outputs except the version-selector comparison, which panics when a
stats version label parses as NaN; for every record whose stats labels
are NaN-free (all other inputs unconstrained) evaluation terminates with
a defined result.  Classification and note resolution are total
functions of their inputs by construction (`classify`,
`get_support_and_notes`). -/
theorem c2_total_no_nan (f : FeatureData)
    (h : ∀ st ∈ f.stats.toList, ∀ e ∈ st, ∀ p ∈ e.2, keyVal p.1 ≠ F32Val.nan) :
    (buildRows f).isSome = true := by
  obtain ⟨sup, st, nbn⟩ := f
  cases sup with
  | some s => rfl
  | none =>
    cases st with
    | none => rfl
    | some stv =>
      have hst := statsRowsList_isSome stv (h stv (by simp))
      simpa [buildRows] using hst

/-- Witness for C2: a concrete NaN-free record evaluates to defined
rows. -/
theorem c2_total_no_nan_witness :
    (buildRows ⟨none, some [("chrome", [("12", "y"), ("beta", "a")])], none⟩).isSome = true :=
  c2_total_no_nan ⟨none, some [("chrome", [("12", "y"), ("beta", "a")])], none⟩ (by decide)

/-- C3 counterexample: the claim asserts the selector returns a pair on
every non-empty stats mapping, but with the label `"nan"` present the
comparator panics and no pair is returned. -/
theorem c3_counterexample :
    selectLatest [("nan", "a"), ("2", "y")] = none := by
  rfl

/-- C3 as amended: for every non-empty stats mapping none of whose
version labels parses as NaN, the selector returns the pair of a label
of maximal parsed value (unparseable labels comparing as 0.0) together
with that label's support string; for the empty mapping it returns empty
label and support string, and the empty support string classifies as
Unknown. -/
theorem c3_version_selector (versions : List (String × String))
    (h : ∀ k ∈ versions.map Prod.fst, keyVal k ≠ F32Val.nan) :
    (versions = [] → selectLatest versions = some ("", "") ∧ classify "" = Status.unknown)
    ∧ (versions ≠ [] → ∃ l s, selectLatest versions = some (l, s)
        ∧ l ∈ versions.map Prod.fst
        ∧ (∀ k ∈ versions.map Prod.fst, krank k ≤ krank l)
        ∧ s = (alookup versions l).getD "") := by
  constructor
  · rintro rfl
    exact ⟨rfl, by decide⟩
  · intro hne
    have hne' : versions.map Prod.fst ≠ [] := by
      cases versions with
      | nil => exact absurd rfl hne
      | cons v vs => simp
    obtain ⟨m, hm, hmem, hall⟩ := latestVersion_spec _ h hne'
    refine ⟨m, (alookup versions m).getD "", ?_, hmem, hall, rfl⟩
    simp [selectLatest, hm]

/-- Witness for C3: on the spec's example map the selector returns a
defined, maximal pair. -/
theorem c3_version_selector_witness :
    ∃ l s, selectLatest [("12", "y"), ("7", "n"), ("beta", "a")] = some (l, s)
      ∧ l ∈ ([("12", "y"), ("7", "n"), ("beta", "a")] : List (String × String)).map Prod.fst
      ∧ (∀ k ∈ ([("12", "y"), ("7", "n"), ("beta", "a")] : List (String × String)).map Prod.fst,
          krank k ≤ krank l)
      ∧ s = (alookup [("12", "y"), ("7", "n"), ("beta", "a")] l).getD "" :=
  (c3_version_selector [("12", "y"), ("7", "n"), ("beta", "a")] (by decide)).2 (by decide)

/-- C4: the Note Resolver produces `"#<num>: <text>"` entries for
exactly the whitespace-delimited `#`-tokens whose number resolves in the
index, joined by newlines in original left-to-right order; unresolved
tokens are dropped silently; and the displayed version string carries
the `" (see notes)"` suffix whenever the raw string contains `'#'`, even
when no token resolved (the `"12 #9"` conjunct). -/
theorem c4_note_resolution : ∀ (version_str : String) (idx : NotesIndex) (browser : String),
    (get_support_and_notes (BrowserSupport.obj [("version_added", Json.jstr version_str)]) idx).2
      = joinSep "\n"
          (((splitWs version_str).filter fun t => startsWithHash t).filterMap fun t =>
            idx.bind fun m =>
              (alookup m (dropHash t)).map fun note => "#" ++ dropHash t ++ ": " ++ note)
    ∧ (supportRow browser (BrowserSupport.obj [("version_added", Json.jstr version_str)]) idx).support
      = (if containsHash version_str then version_str ++ " (see notes)" else version_str)
    ∧ resolveNotes "12 #1 #2" (some [("1", "foo"), ("2", "bar")]) = "#1: foo\n#2: bar"
    ∧ resolveNotes "12 #9" (some [("1", "foo")]) = ""
    ∧ (supportRow browser (BrowserSupport.obj [("version_added", Json.jstr "12 #9")]) idx).support
      = "12 #9 (see notes)" := by
  intro version_str idx browser
  exact ⟨rfl, rfl, by decide, by decide, rfl⟩

/-- C5 counterexample: the claim asserts the Row Builder displays the
canonical raw version string, which for a Detail with boolean
`version_added` is `"true"`/`"false"`; but for `version_added: true` the
builder's `map_or_else` fallback (src/main.rs line 153) displays the
literal `"false"`. -/
theorem c5_counterexample :
    (supportRow "chrome" (BrowserSupport.obj [("version_added", Json.jbool true)]) none).support
      = "false"
    ∧ boolToString true = "true"
    ∧ ("false" : String) ≠ "true" := by
  exact ⟨rfl, rfl, by decide⟩

/-- The canonical raw version string of a Detail shape as the claim
words it: the `version_added` string itself, the literal
`"true"`/`"false"` for a boolean, the sentinel `"unknown"` when absent
(and, following the code, the JSON rendering for any other value, which
the claim leaves unspecified). -/
def rawVersionString (fields : List (String × Json)) : String :=
  match alookup fields "version_added" with
  | some (Json.jstr s) => s
  | some (Json.jbool b) => boolToString b
  | some v => v.toStr
  | none => "unknown"

/-- The string `get_support_and_notes` actually hands to the Status
Classifier (its `support_value_str`). -/
def classifierInput (fields : List (String × Json)) : String :=
  match alookup fields "version_added" with
  | some va =>
    match va.asStr with
    | some s => if containsHash s then s ++ " (see notes)" else s
    | none => va.toStr
  | none => "unknown"

/-- Whether the Detail's `version_added` is a string containing the
footnote delimiter. -/
def hasHashStr (fields : List (String × Json)) : Bool :=
  match (alookup fields "version_added").bind Json.asStr with
  | some s => containsHash s
  | none => false

/-- C5 as amended: the canonical raw version string is as the claim
states it (string itself / `"true"`-`"false"` for a boolean / sentinel
`"unknown"` when absent); the Status Classifier receives exactly that
string, with the `" (see notes)"` suffix appended when it is a string
containing `'#'`; but the Row Builder displays it only when
`version_added` is a string — when `version_added` is absent or not a
string the builder displays the literal `"false"` instead. -/
theorem c5_raw_version_flow :
    ∀ (fields : List (String × Json)) (idx : NotesIndex) (browser : String),
    (get_support_and_notes (BrowserSupport.obj fields) idx).1
      = get_support_emoji (classifierInput fields)
    ∧ classifierInput fields
      = (if hasHashStr fields then rawVersionString fields ++ " (see notes)"
         else rawVersionString fields)
    ∧ (supportRow browser (BrowserSupport.obj fields) idx).support
      = (match (alookup fields "version_added").bind Json.asStr with
         | some _ => if hasHashStr fields then rawVersionString fields ++ " (see notes)"
                     else rawVersionString fields
         | none => "false") := by
  intro fields idx browser
  cases hva : alookup fields "version_added" with
  | none =>
    refine ⟨?_, ?_, ?_⟩ <;>
      simp [get_support_and_notes, classifierInput, supportRow, hasHashStr,
        rawVersionString, hva]
  | some va =>
    cases va <;>
      simp [get_support_and_notes, classifierInput, supportRow, hasHashStr,
        rawVersionString, hva, Json.asStr, Json.toStr]

/-- C6: when both a support map and a stats map are present, every row
derives exclusively from the support map; the stats map never influences
the output, and no row merges the two. -/
theorem c6_support_precedence :
    ∀ (sup : List (String × BrowserSupport))
      (st st' : Option (List (String × List (String × String)))) (nbn : NotesIndex),
    buildRows ⟨some sup, st, nbn⟩ = buildRows ⟨some sup, st', nbn⟩
    ∧ buildRows ⟨some sup, st, nbn⟩ = some (sup.map fun e => supportRow e.1 e.2 nbn) := by
  intro sup st st' nbn
  exact ⟨rfl, rfl⟩

/-- C7: a Detail shape with `version_added: false` produces exactly the
same classification (and notes) as a Boolean shape carrying `false`, and
that classification is Unsupported. -/
theorem c7_detail_false_equiv : ∀ nbn : NotesIndex,
    get_support_and_notes (BrowserSupport.obj [("version_added", Json.jbool false)]) nbn
      = get_support_and_notes (BrowserSupport.bool false) nbn
    ∧ statusOfEmoji
        (get_support_and_notes (BrowserSupport.obj [("version_added", Json.jbool false)]) nbn).1
      = Status.unsupported := by
  intro nbn
  exact ⟨rfl, rfl⟩

/-- C8: a feature record with neither support map nor stats map yields
zero rows without any error, and the "no compatibility data" placeholder
is rendered. -/
theorem c8_no_data_placeholder : ∀ nbn : NotesIndex,
    buildRows ⟨none, none, nbn⟩ = some []
    ∧ showsPlaceholder ⟨none, none, nbn⟩ = true := by
  intro nbn
  exact ⟨rfl, rfl⟩

/-- The support-branch push loop equals pure mapping over the input. -/
lemma pushSupportRows_eq (nbn : NotesIndex) (xs : List (String × BrowserSupport)) :
    ∀ acc, pushSupportRows nbn xs acc = acc ++ xs.map fun e => supportRow e.1 e.2 nbn := by
  induction xs with
  | nil => intro acc; simp [pushSupportRows]
  | cons e rest ih =>
    intro acc
    obtain ⟨b, si⟩ := e
    simp [pushSupportRows, ih]

/-- The stats-branch push loop equals the pure row list, appended to the
accumulator. -/
lemma pushStatsRows_eq (xs : List (String × List (String × String))) :
    ∀ acc, pushStatsRows xs acc = (statsRowsList xs).map fun rows => acc ++ rows := by
  induction xs with
  | nil => intro acc; simp [pushStatsRows, statsRowsList]
  | cons e rest ih =>
    intro acc
    obtain ⟨b, versions⟩ := e
    cases hr : statsRow b versions with
    | none => simp [pushStatsRows, statsRowsList, hr]
    | some r =>
      cases hrest : statsRowsList rest with
      | none => simp [pushStatsRows, statsRowsList, hr, hrest, ih]
      | some rs => simp [pushStatsRows, statsRowsList, hr, hrest, ih]

/-- C9: normalization is deterministic and keeps no hidden state: the
source's accumulator-mutating loop computes exactly the pure,
input-determined row list appended to whatever was accumulated before,
and two consecutive runs on the same record return the identical row
sequence twice. -/
theorem c9_deterministic_engine : ∀ (f : FeatureData) (acc : List BrowserSupportRow),
    buildRowsAcc f acc = (buildRows f).map (fun rows => acc ++ rows)
    ∧ runTwice f = (buildRows f).map (fun rows => (rows, rows)) := by
  intro f acc
  obtain ⟨sup, st, nbn⟩ := f
  constructor
  · cases sup with
    | some s => simp [buildRowsAcc, buildRows, pushSupportRows_eq]
    | none =>
      cases st with
      | some stv => simp [buildRowsAcc, buildRows, pushStatsRows_eq]
      | none => simp [buildRowsAcc, buildRows]
  · cases hb : buildRows ⟨sup, st, nbn⟩ <;> simp [runTwice, hb]

/-- The stats-branch notes value in closed form. -/
lemma statsNotes_eq (sv : String) :
    (statsEmojiNotes sv).2
      = (if firstWsTok sv = some "a" ∨ firstWsTok sv = some "partial" then "see notes"
         else "") := by
  cases ht : firstWsTok sv with
  | none => simp [statsEmojiNotes, ht]
  | some t =>
    by_cases h1 : t = "a" ∨ t = "partial"
    · rcases h1 with rfl | rfl <;> simp [statsEmojiNotes, ht]
    · by_cases h2 : t = "y" ∨ t = "true" <;> by_cases h3 : t = "n" ∨ t = "false" <;>
        simp [statsEmojiNotes, ht, h1, h2, h3]

/-- C10: in the stats branch the notes index is never consulted (the
branch is literally independent of it), and every stats row's notes
field is the fixed literal `"see notes"` exactly when the first
whitespace token of the selected support value is `"a"` or `"partial"`,
and empty otherwise — regardless of any `'#'` tokens in the value. -/
theorem c10_stats_notes_literal :
    ∀ (st : List (String × List (String × String))) (nbn nbn' : NotesIndex)
      (sv b : String) (versions : List (String × String)),
    buildRows ⟨none, some st, nbn⟩ = buildRows ⟨none, some st, nbn'⟩
    ∧ (statsEmojiNotes sv).2
        = (if firstWsTok sv = some "a" ∨ firstWsTok sv = some "partial" then "see notes"
           else "")
    ∧ ((statsEmojiNotes sv).2 = "see notes" ∨ (statsEmojiNotes sv).2 = "")
    ∧ (statsRow b versions).map (fun r => r.notes)
        = (selectLatest versions).map (fun sel => (statsEmojiNotes sel.2).2) := by
  intro st nbn nbn' sv b versions
  refine ⟨rfl, statsNotes_eq sv, ?_, ?_⟩
  · rw [statsNotes_eq sv]
    by_cases hc : firstWsTok sv = some "a" ∨ firstWsTok sv = some "partial" <;> simp [hc]
  · cases hsel : selectLatest versions with
    | none => simp [statsRow, hsel]
    | some sel => simp [statsRow, hsel]
